import Mathlib

/-!
Verification development for the ClinicDashboard repository.

The repository contains three near-duplicate React dashboard screens:
* `src/clinic_dashboard/src/ClinicDashboard.jsx` — id-addressed optimistic variant
  (`parseAppointmentDate`, `isFutureDate`, `groupedAppointments`, `handleAction`);
* `src/unnamed/part_000` (first file) — structural-match variant
  (`parseDate`, inline 20-day window filter, `grouped`, `handleAction` that persists
  before mutating local state);
* `src/unnamed/part_000` (second file) — id-addressed optimistic variant with a
  20-day window (`parseAppointmentDate`, `isWithinNext20Days`, per-action payloads).

This file shallowly embeds the date normalization, window filtering, grouping,
selection and action-handling logic of those files at calendar-day granularity.
JavaScript `Date` values are modeled as year/month/day triples; the
implementation-defined lenient `new Date(string)` parse is modeled on the
grammar the dashboards actually feed it ("<day> <monthname> <4-digit-year>"
after ordinal-suffix stripping, and zero-padded ISO "YYYY-MM-DD" for
hyphen-containing strings); anything outside that grammar is Invalid Date,
modeled as `none`.
-/

namespace Clinic

/-- A calendar date at day granularity: the model of a JS `Date` whose time-of-day
component is irrelevant to the dashboard logic (all comparisons in the source are
made against midnight-normalized dates). -/
structure YMD where
  year : Int
  month : Nat
  day : Nat
  deriving DecidableEq, Repr

/-- Strict chronological comparison of two calendar dates (the model of comparing
the underlying JS timestamps with `<`). -/
def ymdLT (a b : YMD) : Bool :=
  decide (a.year < b.year ∨ (a.year = b.year ∧
    (a.month < b.month ∨ (a.month = b.month ∧ a.day < b.day))))

/-- Non-strict chronological comparison (model of `>=` / `<=` on JS timestamps). -/
def ymdLE (a b : YMD) : Bool :=
  ymdLT a b || decide (a = b)

/-- Gregorian leap-year rule, as implemented by the JS `Date` calendar. -/
def isLeapYear (y : Int) : Bool :=
  decide (y % 4 = 0) && (decide (y % 100 ≠ 0) || decide (y % 400 = 0))

/-- Number of days in a month of a given year, as in the JS `Date` calendar. -/
def daysInMonth (y : Int) (m : Nat) : Nat :=
  if m = 2 then (if isLeapYear y then 29 else 28)
  else if m = 4 ∨ m = 6 ∨ m = 9 ∨ m = 11 then 30
  else 31

/-- JS `Date` field normalization for a possibly out-of-range day-of-month:
a day count exceeding the month length rolls into the following month
(e.g. setting Feb 31 yields Mar 3, setting day 32+20 rolls similarly).
A single roll suffices for every use in the dashboards (day ≤ 51). -/
def rollDayOverflow (y : Int) (m : Nat) (d : Nat) : YMD :=
  if d ≤ daysInMonth y m then ⟨y, m, d⟩
  else if m = 12 then ⟨y + 1, 1, d - daysInMonth y m⟩
  else ⟨y, m + 1, d - daysInMonth y m⟩

/-- `sixMonthsAgo`: the source computes `new Date()` followed by
`setMonth(getMonth() - 6)`. At day granularity this steps the reference date
six calendar months back, with JS day-overflow normalization
(e.g. Aug 31 → "Feb 31" → Mar 3). -/
def monthsBackSix (now : YMD) : YMD :=
  if now.month ≤ 6 then rollDayOverflow (now.year - 1) (now.month + 6) now.day
  else rollDayOverflow now.year (now.month - 6) now.day

/-- JS `dateObj.setFullYear(y)`: replace the year and renormalize the day
(Feb 29 of a leap year becomes Mar 1 in a non-leap target year). -/
def jsSetFullYear (y : Int) (d : YMD) : YMD :=
  rollDayOverflow y d.month d.day

/-- `futureLimit.setDate(today.getDate() + 20)`: the inclusive upper bound of the
20-day display window, with JS day-overflow normalization. -/
def plusTwentyDays (now : YMD) : YMD :=
  rollDayOverflow now.year now.month (now.day + 20)

/-! ### String scanning

The dashboards clean raw date strings with
`dateString.replace(/(\d+)(st|nd|rd|th)/i, '$1')` (first match only) and then
hand the result to the JS `Date` constructor. The helpers below re-implement
that scanning on the character list of the string. -/

/-- Does the two-character sequence form an ordinal suffix (case-insensitive
`st`, `nd`, `rd`, `th`)? -/
def isOrdSuffixPair (a b : Char) : Bool :=
  (a.toLower = 's' && b.toLower = 't') ||
  (a.toLower = 'n' && b.toLower = 'd') ||
  (a.toLower = 'r' && b.toLower = 'd') ||
  (a.toLower = 't' && b.toLower = 'h')

/-- Character-level model of `replace(/(\d+)(st|nd|rd|th)/i, '$1')`: delete the
first ordinal suffix that immediately follows a digit run, leave everything else
unchanged. Only the first match is replaced (no `g` flag in the source regex). -/
def stripOrdinalAux : List Char → List Char
  | [] => []
  | c :: cs =>
    if c.isDigit then
      match cs with
      | a :: b :: rest =>
        if a.isDigit then c :: stripOrdinalAux cs
        else if isOrdSuffixPair a b then c :: rest
        else c :: stripOrdinalAux cs
      | _ => c :: cs
    else c :: stripOrdinalAux cs

/-- `cleanDate` in the source: the raw string with its first ordinal suffix
stripped. -/
def stripOrdinalSuffix (s : String) : String :=
  ⟨stripOrdinalAux s.data⟩

/-- Split a character list on spaces, dropping empty fragments (the whitespace
tokenization performed by the JS date parser). Accumulates the current token
in reverse. -/
def tokensOfAux (cur : List Char) : List Char → List String
  | [] => if cur.isEmpty then [] else [⟨cur.reverse⟩]
  | c :: cs =>
    if c = ' ' then
      if cur.isEmpty then tokensOfAux [] cs
      else (⟨cur.reverse⟩ : String) :: tokensOfAux [] cs
    else tokensOfAux (c :: cur) cs

/-- Whitespace tokens of a string. -/
def tokensOf (s : String) : List String :=
  tokensOfAux [] s.data

/-- Split a character list at every hyphen, keeping empty fragments (so that a
malformed string such as "2025--10-14" does not masquerade as a valid ISO
date). -/
def splitDashAux (cur : List Char) : List Char → List String
  | [] => [⟨cur.reverse⟩]
  | c :: cs =>
    if c = '-' then (⟨cur.reverse⟩ : String) :: splitDashAux [] cs
    else splitDashAux (c :: cur) cs

/-- The hyphen-separated fragments of a string. -/
def splitOnDash (s : String) : List String :=
  splitDashAux [] s.data

/-- `dateString.includes('-')`. -/
def containsDash (s : String) : Bool :=
  s.data.any (fun c => c = '-')

/-- Numeric value of a digit list (most significant first). -/
def natOfDigits (cs : List Char) : Nat :=
  cs.foldl (fun n c => n * 10 + (c.toNat - '0'.toNat)) 0

/-- A token is numeric iff it is nonempty and all digits; its value then. -/
def natOfToken (t : String) : Option Nat :=
  if t.data ≠ [] ∧ t.data.all Char.isDigit then some (natOfDigits t.data) else none

/-- `/\d{4}/.test(clean)`: does the string contain four consecutive digits? -/
def hasFourDigitRunAux : List Char → Bool
  | c1 :: c2 :: c3 :: c4 :: rest =>
    (c1.isDigit && c2.isDigit && c3.isDigit && c4.isDigit)
      || hasFourDigitRunAux (c2 :: c3 :: c4 :: rest)
  | _ => false

/-- `/\d{4}/.test(s)`. -/
def hasFourDigitRun (s : String) : Bool :=
  hasFourDigitRunAux s.data

/-- English month names with their numbers, for the lenient date parse. -/
def monthFull : List (String × Nat) :=
  [("january", 1), ("february", 2), ("march", 3), ("april", 4), ("may", 5),
   ("june", 6), ("july", 7), ("august", 8), ("september", 9), ("october", 10),
   ("november", 11), ("december", 12)]

/-- Month recognition of the lenient JS date parser on word tokens: a token of
at least three letters that is a case-insensitive prefix of a month name
("Oct", "October", "octob", ...). -/
def monthFromToken (t : String) : Option Nat :=
  let l := t.data.map Char.toLower
  if l.length < 3 then none
  else (monthFull.find? (fun p => List.isPrefixOf l p.1.data)).map (fun p => p.2)

/-- Build a calendar date, validating month range and day-of-month against the
month length (the lenient JS string parse rejects out-of-range components such
as "31 Feb 2025" as Invalid Date). -/
def mkValidYMD (y : Int) (m d : Nat) : Option YMD :=
  if 1 ≤ m ∧ m ≤ 12 ∧ 1 ≤ d ∧ d ≤ daysInMonth y m then some ⟨y, m, d⟩ else none

/-- Model of the implementation-defined lenient `new Date(string)` parse on the
grammar the dashboards produce: exactly three whitespace tokens
"<1-2 digit day> <month name> <4-digit year>". Anything else is Invalid Date
(`none`); in particular a string carrying two 4-digit numerals — which the jsx
variant produces when a raw date already contains a year and the current year
is appended — has four tokens and is rejected. -/
def jsLooseParseTokens : List String → Option YMD
  | [dTok, mTok, yTok] =>
    match natOfToken dTok, monthFromToken mTok, natOfToken yTok with
    | some d, some m, some y =>
      if dTok.length ≤ 2 ∧ yTok.length = 4 then mkValidYMD (Int.ofNat y) m d
      else none
    | _, _, _ => none
  | _ => none

/-- Model of `new Date(string)` on hyphen-containing strings: a zero-padded ISO
"YYYY-MM-DD" calendar date; malformed or out-of-range strings are Invalid Date
(`none`). -/
def parseISO (s : String) : Option YMD :=
  match splitOnDash s with
  | [yTok, mTok, dTok] =>
    match natOfToken yTok, natOfToken mTok, natOfToken dTok with
    | some y, some m, some d =>
      if yTok.length = 4 ∧ mTok.length = 2 ∧ dTok.length = 2 then
        mkValidYMD (Int.ofNat y) m d
      else none
    | _, _, _ => none
  | _ => none

/-! ### The date normalizers of the three variants -/

/-- `parseAppointmentDate` of ClinicDashboard.jsx (lines 24-47) and of the second
file of part_000 (lines 203-223), which are identical: falsy input → null;
hyphen → direct `new Date` parse; otherwise strip the ordinal suffix, parse with
the reference year appended, and if the result is before `sixMonthsAgo` bump the
year by one (`setFullYear(currentYear + 1)`). Invalid parses propagate as `none`
(Invalid Date). `now` is the reference "current" date (`new Date()`). -/
def parseAppointmentDate (dateString : String) (now : YMD) : Option YMD :=
  if dateString = "" then none
  else if containsDash dateString then parseISO dateString
  else
    match jsLooseParseTokens
        (tokensOf (stripOrdinalSuffix dateString ++ " " ++ toString now.year)) with
    | none => none
    | some dateObj =>
      if ymdLT dateObj (monthsBackSix now) then
        some (jsSetFullYear (now.year + 1) dateObj)
      else some dateObj

/-- `parseDate` of the structural-match variant (part_000 first file, lines
20-30): falsy input → null; hyphen → direct `new Date` parse; otherwise strip
the ordinal suffix and, if the cleaned string already contains a 4-digit run,
parse it as-is, else parse with the current year appended. There is no
year-rollover adjustment in this variant. -/
def parseDate (dateStr : String) (currentYear : Int) : Option YMD :=
  if dateStr = "" then none
  else if containsDash dateStr then parseISO dateStr
  else if hasFourDigitRun (stripOrdinalSuffix dateStr) then
    jsLooseParseTokens (tokensOf (stripOrdinalSuffix dateStr))
  else
    jsLooseParseTokens (tokensOf (stripOrdinalSuffix dateStr ++ " " ++ toString currentYear))

/-- The literal parse of an ordinal string: the cleaned string parsed with the
given calendar year appended, before any rollover adjustment. This is the
"literal-year parse" of the specification. -/
def literalYearParse (raw : String) (year : Int) : Option YMD :=
  jsLooseParseTokens (tokensOf (stripOrdinalSuffix raw ++ " " ++ toString year))

/-- "Strictly more than six months before now", as the code decides it: strictly
earlier than the reference date stepped back six calendar months. -/
def moreThanSixMonthsBefore (d now : YMD) : Bool :=
  ymdLT d (monthsBackSix now)

/-- "One year later": the date with its year incremented, with JS
`setFullYear` day normalization (Feb 29 → Mar 1 in a non-leap year). -/
def oneYearLater (d : YMD) : YMD :=
  jsSetFullYear (d.year + 1) d

/-! ### Window filters -/

/-- `isFutureDate` of ClinicDashboard.jsx (lines 50-58): unparseable → false,
otherwise the appointment date is on or after the start of today. -/
def isFutureDate (dateString : String) (now : YMD) : Bool :=
  match parseAppointmentDate dateString now with
  | none => false
  | some d => ymdLE now d

/-- `isWithinNext20Days` of the second file of part_000 (lines 226-237):
unparseable → false, otherwise within [today, today + 20 days], both ends
inclusive at day granularity. -/
def isWithinNextTwentyDays (dateString : String) (now : YMD) : Bool :=
  match parseAppointmentDate dateString now with
  | none => false
  | some d => ymdLE now d && ymdLE d (plusTwentyDays now)

/-- The inline window filter of the structural-match variant's
`fetchAppointments` (part_000 first file, lines 49-52), which uses `parseDate`:
unparseable → false (the JS comparison of null/NaN against a date is false),
otherwise within [now, now + 20 days]. -/
def inTwentyDayWindowStructural (dateStr : String) (now : YMD) : Bool :=
  match parseDate dateStr now.year with
  | none => false
  | some d => ymdLE now d && ymdLE d (plusTwentyDays now)

/-! ### Appointments, sorting, fetch pipeline -/

/-- An appointment row as the dashboards read it from the repository. `id` is
`none` when the row carries no id (the structural-match variant's select list
omits it, leaving the JS field undefined). All rows handled by the dashboards
have status Scheduled (the fetch filters on it), so status is not carried. -/
structure Appt where
  id : Option Nat := none
  patient_name : String := ""
  email : String := ""
  phone_number : String := ""
  patient_symptoms : String := ""
  report_url : String := ""
  date : String := ""
  start_time : String := ""
  deriving DecidableEq, Repr

/-- The sort key of an appointment: its parsed date. Rows reaching the sort have
already passed the window filter, so the parse always succeeds there; the
default value only quiets the `Option`. -/
def dateKey (now : YMD) (a : Appt) : YMD :=
  (parseAppointmentDate a.date now).getD ⟨0, 1, 1⟩

/-- Stable insertion of an appointment into a date-sorted list: it goes before
the first element whose key is not strictly smaller, so elements with equal
keys keep their original relative order — the stability JS `Array.sort`
guarantees for the comparator `parseAppointmentDate(a.date) -
parseAppointmentDate(b.date)`. -/
def insertByDate (now : YMD) (a : Appt) : List Appt → List Appt
  | [] => [a]
  | b :: bs =>
    if ymdLT (dateKey now b) (dateKey now a) then b :: insertByDate now a bs
    else a :: b :: bs

/-- Stable sort by parsed date (extensionally the JS stable `Array.sort` with
the date-difference comparator: for a total preorder the stable sorted result
is unique). -/
def sortByDate (now : YMD) : List Appt → List Appt
  | [] => []
  | a :: rest => insertByDate now a (sortByDate now rest)

/-- The working set produced by `fetchAppointments` in ClinicDashboard.jsx:
keep the rows passing `isFutureDate`, then stable-sort them by parsed date.
`rows` is what the repository returned (all Scheduled). -/
def fetchResult (rows : List Appt) (now : YMD) : List Appt :=
  sortByDate now (rows.filter (fun a => isFutureDate a.date now))

/-- JS falsiness of the `selectedDate` state: null (no selection yet) or the
empty string. -/
def jsFalsyStr : Option String → Bool
  | none => true
  | some s => s = ""

/-- The selection update at the end of a successful fetch (jsx lines 82-85):
`if (sorted.length > 0 && !selectedDate) setSelectedDate(sorted[0].date)`. -/
def updateSelection (sorted : List Appt) (sel : Option String) : Option String :=
  match sorted with
  | [] => sel
  | a :: _ => if jsFalsyStr sel then some a.date else sel

/-! ### Grouping -/

/-- The keys of the `groups` object in first-insertion order: a key is appended
the first time it is seen (`if (!groups[dateKey]) groups[dateKey] = []`), which
is also the enumeration order of non-index string keys of a JS object. -/
def keysInOrder (seen : List String) : List String → List String
  | [] => []
  | k :: ks =>
    if k ∈ seen then keysInOrder seen ks
    else k :: keysInOrder (k :: seen) ks

/-- `groupedAppointments` (jsx lines 96-106) and `grouped` (part_000 first file
lines 63-68): partition the working set by its raw `date` string, buckets in
first-occurrence key order, each bucket holding its appointments in working-set
order. No further sorting happens inside a bucket. -/
def groupedAppointments (ws : List Appt) : List (String × List Appt) :=
  (keysInOrder [] (ws.map (fun a => a.date))).map
    (fun k => (k, ws.filter (fun a => a.date = k)))

/-- Concatenation of the buckets in bucket order (the flattening used to state
grouping idempotence). -/
def bucketsFlatten (g : List (String × List Appt)) : List Appt :=
  g.flatMap (fun b => b.2)

/-! ### The action protocol -/

/-- The observable operations `handleAction` can perform, in execution order. -/
inductive Step where
  | confirmPrompt
  | localRemove
  | persistCall
  | notifyDispatch
  | alertOperator
  | refetchCall
  deriving DecidableEq, Repr

/-- Operation order of `handleAction` in the id-addressed variants
(ClinicDashboard.jsx lines 112-154 and part_000 second file lines 265-316):
confirm; if confirmed, optimistic local removal, then the persistence update;
on success a webhook dispatch, on failure an alert followed by a full refetch.
`confirmed` is the operator's answer, `persistOk` the persistence outcome. -/
def handleActionSteps (confirmed persistOk : Bool) : List Step :=
  if confirmed then
    [Step.confirmPrompt, Step.localRemove, Step.persistCall] ++
      (if persistOk then [Step.notifyDispatch]
       else [Step.alertOperator, Step.refetchCall])
  else [Step.confirmPrompt]

/-- Operation order of `handleAction` in the structural-match variant (part_000
first file lines 70-97): confirm; if confirmed, the persistence update runs
first; only on success are the webhook dispatched and the appointment removed
from the local working set; on failure the operator is alerted and nothing
else happens (no removal, no refetch). -/
def handleActionStepsStructural (confirmed persistOk : Bool) : List Step :=
  if confirmed then
    [Step.confirmPrompt, Step.persistCall] ++
      (if persistOk then [Step.notifyDispatch, Step.localRemove]
       else [Step.alertOperator])
  else [Step.confirmPrompt]

/-- The local working set right after the synchronous part of the id-addressed
`handleAction` (jsx line 120: `setAppointments(prev => prev.filter(a => a.id !==
id))`), i.e. before any persistence result exists. Declining the confirm leaves
the set untouched. -/
def localSetAfterOptimistic (ws : List Appt) (targetId : Option Nat)
    (confirmed : Bool) : List Appt :=
  if confirmed then ws.filter (fun a => a.id ≠ targetId) else ws

/-- The local working set of the id-addressed `handleAction` once the
asynchronous part has settled: after optimistic removal, a persistence failure
triggers `fetchAppointments()`, replacing the set with a fresh fetch of the
repository (`repoRows` is what the repository returns then). -/
def handleActionFinalSet (ws : List Appt) (targetId : Option Nat)
    (confirmed persistOk : Bool) (repoRows : List Appt) (now : YMD) : List Appt :=
  if confirmed then
    if persistOk then ws.filter (fun a => a.id ≠ targetId)
    else fetchResult repoRows now
  else ws

/-! ### Webhook payloads -/

/-- The two terminal actions. -/
inductive ActionType where
  | Completed
  | Cancelled
  deriving DecidableEq, Repr

/-- Display name of an action, as the source interpolates it. -/
def actionTypeName : ActionType → String
  | ActionType.Completed => "Completed"
  | ActionType.Cancelled => "Cancelled"

/-- Rendering of a possibly-undefined id into the JSON payload. -/
def idRender : Option Nat → String
  | none => "undefined"
  | some n => toString n

/-- Webhook payload of ClinicDashboard.jsx (lines 134-140), as field-name/value
pairs in source order. The timestamp field is `cancelled_at` for BOTH action
types — the payload shape does not branch on the action. `userEmail` is the
logged-in user's email (`user?.email`), `nowIso` the ISO timestamp string. -/
def payloadJsx (appt : Appt) (userEmail : Option String) (nowIso : String)
    (actionType : ActionType) : List (String × String) :=
  [("appointment_id", idRender appt.id),
   ("patient_name", appt.patient_name),
   ("email", userEmail.getD "unknown@clinic.com"),
   ("reason", if actionType = ActionType.Completed then "Appointment Completed"
              else "User cancelled via dashboard"),
   ("cancelled_at", nowIso)]

/-- Webhook payload of the structural-match variant (part_000 first file, lines
83-90): one shape for both actions, with the combined `action_at` timestamp. -/
def payloadStructural (appt : Appt) (nowIso : String) (actionType : ActionType) :
    List (String × String) :=
  [("patient_name", appt.patient_name),
   ("email", appt.email),
   ("date", appt.date),
   ("time", appt.start_time),
   ("status", actionTypeName actionType),
   ("action_at", nowIso)]

/-- Webhook payload of the second file of part_000 (lines 288-303): the shape
branches on the action, with `cancelled_at` for Cancelled and `completed_at`
for Completed. -/
def payloadPerAction (appt : Appt) (nowIso : String) : ActionType → List (String × String)
  | ActionType.Cancelled =>
    [("appointment_id", idRender appt.id),
     ("patient_name", appt.patient_name),
     ("email", appt.email),
     ("reason", "Doctor cancelled via Clinic Dashboard"),
     ("cancelled_at", nowIso)]
  | ActionType.Completed =>
    [("appointment_id", idRender appt.id),
     ("patient_name", appt.patient_name),
     ("email", appt.email),
     ("status", "Completed"),
     ("completed_at", nowIso)]

/-! ### Order lemmas for calendar dates -/

theorem ymd_eq_iff (a b : YMD) :
    a = b ↔ a.year = b.year ∧ a.month = b.month ∧ a.day = b.day := by
  cases a; cases b; simp [YMD.mk.injEq]

theorem ymdLT_iff (a b : YMD) :
    ymdLT a b = true ↔ a.year < b.year ∨ (a.year = b.year ∧
      (a.month < b.month ∨ (a.month = b.month ∧ a.day < b.day))) := by
  simp [ymdLT]

theorem ymdLE_iff (a b : YMD) :
    ymdLE a b = true ↔ a.year < b.year ∨ (a.year = b.year ∧
      (a.month < b.month ∨ (a.month = b.month ∧ a.day ≤ b.day))) := by
  simp only [ymdLE, Bool.or_eq_true, ymdLT_iff, decide_eq_true_eq, ymd_eq_iff]
  omega

theorem ymdLE_refl (a : YMD) : ymdLE a a = true := by
  rw [ymdLE_iff]; omega

theorem ymdLE_trans {a b c : YMD} (h1 : ymdLE a b = true) (h2 : ymdLE b c = true) :
    ymdLE a c = true := by
  rw [ymdLE_iff] at h1 h2 ⊢; omega

theorem ymdLT_not_iff (a b : YMD) : ymdLT a b = false ↔ ymdLE b a = true := by
  rw [ymdLE_iff, ← Bool.not_eq_true, ymdLT_iff]; omega

theorem ymdLT_le {a b : YMD} (h : ymdLT a b = true) : ymdLE a b = true := by
  rw [ymdLE_iff]; rw [ymdLT_iff] at h; omega

/-! ### Sorting lemmas -/

theorem mem_insertByDate (now : YMD) (a x : Appt) (l : List Appt) :
    x ∈ insertByDate now a l ↔ x = a ∨ x ∈ l := by
  induction l with
  | nil => simp [insertByDate]
  | cons b bs ih =>
    simp only [insertByDate]
    split
    · simp only [List.mem_cons, ih]; tauto
    · simp [List.mem_cons]

theorem mem_sortByDate (now : YMD) (x : Appt) (l : List Appt) :
    x ∈ sortByDate now l ↔ x ∈ l := by
  induction l with
  | nil => simp [sortByDate]
  | cons a rest ih => simp [sortByDate, mem_insertByDate, ih]

theorem pairwise_insertByDate (now : YMD) (a : Appt) (l : List Appt)
    (h : l.Pairwise (fun x y => ymdLE (dateKey now x) (dateKey now y) = true)) :
    (insertByDate now a l).Pairwise
      (fun x y => ymdLE (dateKey now x) (dateKey now y) = true) := by
  induction l with
  | nil => simp [insertByDate]
  | cons b bs ih =>
    rw [List.pairwise_cons] at h
    simp only [insertByDate]
    split
    · rename_i hlt
      rw [List.pairwise_cons]
      refine ⟨fun y hy => ?_, ih h.2⟩
      rcases (mem_insertByDate now a y bs).mp hy with rfl | hmem
      · exact ymdLT_le hlt
      · exact h.1 y hmem
    · rename_i hnlt
      rw [Bool.not_eq_true] at hnlt
      rw [List.pairwise_cons]
      refine ⟨fun y hy => ?_, List.pairwise_cons.mpr h⟩
      rcases List.mem_cons.mp hy with rfl | hmem
      · exact (ymdLT_not_iff _ _).mp hnlt
      · exact ymdLE_trans ((ymdLT_not_iff _ _).mp hnlt) (h.1 y hmem)

theorem pairwise_sortByDate (now : YMD) (l : List Appt) :
    (sortByDate now l).Pairwise
      (fun x y => ymdLE (dateKey now x) (dateKey now y) = true) := by
  induction l with
  | nil => simp [sortByDate]
  | cons a rest ih => exact pairwise_insertByDate now a _ ih

/-- The head of the date-sorted working set has the chronologically smallest
key. -/
theorem sortByDate_head_min (now : YMD) (l : List Appt) (a : Appt)
    (rest : List Appt) (h : sortByDate now l = a :: rest) :
    ∀ x ∈ sortByDate now l, ymdLE (dateKey now a) (dateKey now x) = true := by
  intro x hx
  have hp := pairwise_sortByDate now l
  rw [h] at hp hx
  rcases List.mem_cons.mp hx with rfl | hmem
  · exact ymdLE_refl _
  · exact (List.pairwise_cons.mp hp).1 x hmem

theorem mem_fetchResult (rows : List Appt) (now : YMD) (x : Appt) :
    x ∈ fetchResult rows now ↔ x ∈ rows ∧ isFutureDate x.date now = true := by
  rw [fetchResult, mem_sortByDate, List.mem_filter]

/-! ### Grouping lemmas -/

theorem mem_keysInOrder (x : String) :
    ∀ (l seen : List String), x ∈ keysInOrder seen l ↔ x ∈ l ∧ x ∉ seen := by
  intro l
  induction l with
  | nil => intro seen; simp [keysInOrder]
  | cons k ks ih =>
    intro seen
    simp only [keysInOrder]
    split
    · rename_i hk
      rw [ih seen]
      constructor
      · rintro ⟨h1, h2⟩; exact ⟨List.mem_cons_of_mem _ h1, h2⟩
      · rintro ⟨h1, h2⟩
        rcases List.mem_cons.mp h1 with rfl | h1
        · exact absurd hk h2
        · exact ⟨h1, h2⟩
    · rename_i hk
      rw [List.mem_cons, ih (k :: seen)]
      constructor
      · rintro (rfl | ⟨h1, h2⟩)
        · exact ⟨List.mem_cons_self _ _, hk⟩
        · exact ⟨List.mem_cons_of_mem _ h1, fun hx => h2 (List.mem_cons_of_mem _ hx)⟩
      · rintro ⟨h1, h2⟩
        rcases List.mem_cons.mp h1 with rfl | h1
        · exact Or.inl rfl
        · by_cases hxk : x = k
          · exact Or.inl hxk
          · exact Or.inr ⟨h1, fun hx => by
              rcases List.mem_cons.mp hx with h | h
              · exact hxk h
              · exact h2 h⟩

theorem keysInOrder_nodup : ∀ (l seen : List String), (keysInOrder seen l).Nodup := by
  intro l
  induction l with
  | nil => intro seen; simp [keysInOrder]
  | cons k ks ih =>
    intro seen
    simp only [keysInOrder]
    split
    · exact ih seen
    · refine List.nodup_cons.mpr ⟨fun hk => ?_, ih (k :: seen)⟩
      exact ((mem_keysInOrder k ks (k :: seen)).mp hk).2 (List.mem_cons_self _ _)

/-- Scanning a run of already-seen keys adds nothing. -/
theorem keysInOrder_skip (seen : List String) :
    ∀ (l l2 : List String), (∀ x ∈ l, x ∈ seen) →
      keysInOrder seen (l ++ l2) = keysInOrder seen l2 := by
  intro l
  induction l with
  | nil => intro l2 _; rfl
  | cons c cs ih =>
    intro l2 hall
    simp only [List.cons_append, keysInOrder]
    rw [if_pos (hall c (List.mem_cons_self _ _))]
    exact ih l2 (fun x hx => hall x (List.mem_cons_of_mem _ hx))

/-- Scanning a concatenation of nonempty constant blocks whose (pairwise
distinct) keys are all unseen recovers exactly the key list. -/
theorem keysInOrder_blocks (g : String → List String) :
    ∀ (ks seen : List String), ks.Nodup → (∀ k ∈ ks, k ∉ seen) →
      (∀ k ∈ ks, g k ≠ [] ∧ ∀ x ∈ g k, x = k) →
      keysInOrder seen (ks.flatMap g) = ks := by
  intro ks
  induction ks with
  | nil => intro seen _ _ _; rfl
  | cons k ks' ih =>
    intro seen hnd hunseen hblocks
    have hk := hblocks k (List.mem_cons_self _ _)
    obtain ⟨c, crest, hgk⟩ : ∃ c crest, g k = c :: crest := by
      cases hgkeq : g k with
      | nil => exact absurd hgkeq hk.1
      | cons c crest => exact ⟨c, crest, rfl⟩
    have hc : c = k := hk.2 c (hgk ▸ List.mem_cons_self _ _)
    rw [List.flatMap_cons, hgk, hc, List.cons_append, keysInOrder]
    rw [if_neg (hunseen k (List.mem_cons_self _ _))]
    rw [keysInOrder_skip (k :: seen) crest _ (fun x hx => by
      rw [hk.2 x (hgk ▸ List.mem_cons_of_mem _ hx)]; exact List.mem_cons_self _ _)]
    have hnd' := List.nodup_cons.mp hnd
    rw [ih (k :: seen) hnd'.2
      (fun k' hk' => by
        intro hmem
        rcases List.mem_cons.mp hmem with rfl | h
        · exact hnd'.1 hk'
        · exact hunseen k' (List.mem_cons_of_mem _ hk') h)
      (fun k' hk' => hblocks k' (List.mem_cons_of_mem _ hk'))]

/-- Flattening the labeled buckets is flat-mapping the bucket contents. -/
theorem bucketsFlatten_map (ks : List String) (h : String → List Appt) :
    bucketsFlatten (ks.map (fun k => (k, h k))) = ks.flatMap h := by
  induction ks with
  | nil => rfl
  | cons k ks' ih => simp only [bucketsFlatten, List.map_cons, List.flatMap_cons] at *; rw [ih]

theorem map_flatMap_law (f : Appt → String) (g : String → List Appt) (l : List String) :
    (l.flatMap g).map f = l.flatMap (fun k => (g k).map f) := by
  induction l with
  | nil => rfl
  | cons k ks ih => simp only [List.flatMap_cons, List.map_append, ih]

theorem filter_flatMap_law (p : Appt → Bool) (g : String → List Appt) (l : List String) :
    (l.flatMap g).filter p = l.flatMap (fun k => (g k).filter p) := by
  induction l with
  | nil => rfl
  | cons k ks ih => simp only [List.flatMap_cons, List.filter_append, ih]

theorem flatMap_single_nil (k : String) (B : List Appt) :
    ∀ (ks : List String), k ∉ ks →
      (ks.flatMap (fun k' => if k' = k then B else [])) = [] := by
  intro ks
  induction ks with
  | nil => intro _; rfl
  | cons a ks' ih =>
    intro hmem
    have hne : ¬ a = k := by
      intro heq; apply hmem; rw [← heq]; exact List.mem_cons_self _ _
    rw [List.flatMap_cons, if_neg hne, List.nil_append]
    exact ih (fun h => hmem (List.mem_cons_of_mem _ h))

/-- Flat-mapping a function that is nonzero on exactly one key of a
duplicate-free list yields that key's block. -/
theorem flatMap_single (k : String) (B : List Appt) :
    ∀ (ks : List String), ks.Nodup → k ∈ ks →
      (ks.flatMap (fun k' => if k' = k then B else [])) = B := by
  intro ks
  induction ks with
  | nil => intro _ h; cases h
  | cons a ks' ih =>
    intro hnd hmem
    have hnd' := List.nodup_cons.mp hnd
    rw [List.flatMap_cons]
    rcases List.mem_cons.mp hmem with rfl | hmem'
    · rw [if_pos rfl, flatMap_single_nil k B ks' hnd'.1, List.append_nil]
    · have hne : ¬ a = k := by
        intro heq; apply hnd'.1; rw [heq]; exact hmem'
      rw [if_neg hne, List.nil_append]
      exact ih hnd'.2 hmem'

/-- Every bucket of the grouping holds exactly the working-set elements carrying
its key, in working-set order. -/
theorem grouped_bucket_eq (ws : List Appt) (b : String × List Appt)
    (hb : b ∈ groupedAppointments ws) :
    b.2 = ws.filter (fun a => a.date = b.1) := by
  rw [groupedAppointments] at hb
  obtain ⟨k, _, rfl⟩ := List.mem_map.mp hb
  rfl

theorem flatMap_congr_law (f g : String → List Appt) :
    ∀ (l : List String), (∀ x ∈ l, f x = g x) → l.flatMap f = l.flatMap g := by
  intro l
  induction l with
  | nil => intro _; rfl
  | cons a l' ih =>
    intro h
    rw [List.flatMap_cons, List.flatMap_cons, h a (List.mem_cons_self _ _),
      ih (fun x hx => h x (List.mem_cons_of_mem _ hx))]

/-- The flattened grouping, as a flat map over the key list. -/
theorem bucketsFlatten_grouped (ws : List Appt) :
    bucketsFlatten (groupedAppointments ws) =
      (keysInOrder [] (ws.map (fun a => a.date))).flatMap
        (fun k => ws.filter (fun a => a.date = k)) := by
  rw [groupedAppointments, bucketsFlatten_map]

/-- Re-scanning the flattened buckets reproduces the key list. -/
theorem keys_of_flattened (ws : List Appt) :
    keysInOrder [] ((bucketsFlatten (groupedAppointments ws)).map (fun a => a.date)) =
      keysInOrder [] (ws.map (fun a => a.date)) := by
  rw [bucketsFlatten_grouped, map_flatMap_law]
  apply keysInOrder_blocks
  · exact keysInOrder_nodup _ _
  · intro k _ h; cases h
  · intro k hk
    have hkmem : k ∈ ws.map (fun a => a.date) :=
      ((mem_keysInOrder k _ _).mp hk).1
    obtain ⟨a, ha, hdate⟩ := List.mem_map.mp hkmem
    constructor
    · intro hnil
      have : a ∈ ws.filter (fun x => x.date = k) :=
        List.mem_filter.mpr ⟨ha, by simp [hdate]⟩
      rw [List.map_eq_nil_iff] at hnil
      rw [hnil] at this
      cases this
    · intro x hx
      obtain ⟨b, hb, rfl⟩ := List.mem_map.mp hx
      exact of_decide_eq_true (List.mem_filter.mp hb).2

/-- Filtering the flattened buckets by a key recovers exactly the working-set
elements with that key. -/
theorem filter_of_flattened (ws : List Appt) (k : String) :
    (bucketsFlatten (groupedAppointments ws)).filter (fun a => a.date = k) =
      ws.filter (fun a => a.date = k) := by
  rw [bucketsFlatten_grouped, filter_flatMap_law]
  have hstep : ∀ k' ∈ keysInOrder [] (ws.map (fun a => a.date)),
      (ws.filter (fun a => a.date = k')).filter (fun a => a.date = k) =
        (if k' = k then ws.filter (fun a => a.date = k) else []) := by
    intro k' _
    by_cases hkk : k' = k
    · subst hkk
      rw [if_pos rfl, List.filter_filter]
      apply List.filter_congr
      intro a _
      simp
    · rw [if_neg hkk]
      apply List.filter_eq_nil_iff.mpr
      intro a ha
      have : a.date = k' := of_decide_eq_true (List.mem_filter.mp ha).2
      simp only [this, decide_eq_true_eq]
      exact hkk
  rw [flatMap_congr_law _ _ _ hstep]
  by_cases hk : k ∈ keysInOrder [] (ws.map (fun a => a.date))
  · exact flatMap_single k _ _ (keysInOrder_nodup _ _) hk
  · rw [flatMap_single_nil k _ _ hk]
    symm
    apply List.filter_eq_nil_iff.mpr
    intro a ha
    simp only [decide_eq_true_eq]
    intro hdate
    apply hk
    rw [mem_keysInOrder]
    exact ⟨List.mem_map.mpr ⟨a, ha, hdate⟩, List.not_mem_nil k⟩

/-! ### Concrete inputs used by witnesses and counterexamples -/

/-- Reference date for the concrete scenarios: 2025-10-01. -/
def nowOct : YMD := ⟨2025, 10, 1⟩

/-- Scenario appointment: 2025-10-14 at 09:00 (fetched first). -/
def apptNine : Appt := { patient_name := "A", date := "2025-10-14", start_time := "09:00" }

/-- Scenario appointment: 2025-10-14 at 08:30 (fetched second). -/
def apptEightThirty : Appt :=
  { patient_name := "B", date := "2025-10-14", start_time := "08:30" }

/-- A later appointment (2025-10-20). -/
def apptLate : Appt :=
  { id := some 2, patient_name := "L", date := "2025-10-20", start_time := "10:00" }

/-- An earlier appointment (2025-10-12). -/
def apptEarly : Appt :=
  { id := some 1, patient_name := "E", date := "2025-10-12", start_time := "11:00" }

/-- An appointment whose raw date is unparseable. -/
def apptSoon : Appt := { patient_name := "S", date := "soon", start_time := "09:00" }

/-- Two appointments with no id column selected (id undefined on both). -/
def apptDupA : Appt := { patient_name := "A", date := "2025-10-12", start_time := "09:00" }

/-- Second id-less appointment. -/
def apptDupB : Appt := { patient_name := "B", date := "2025-10-13", start_time := "09:30" }

/-! ### Claim theorems -/

/-- C1 (amended): in the id-addressed variants, every confirmed invocation of
the action handler removes the appointment from the local working set
synchronously, before the persistence call is issued and independently of the
persistence outcome; the removal deletes exactly the rows whose id equals the
target id. (The structural-match variant instead removes only after a
successful persistence result — see the counterexample.) -/
theorem C1_removal_before_persist (persistOk : Bool) (ws : List Appt)
    (tid : Option Nat) :
    (handleActionSteps true persistOk).take 3 =
      [Step.confirmPrompt, Step.localRemove, Step.persistCall] ∧
    Step.localRemove ∈ handleActionSteps true persistOk ∧
    localSetAfterOptimistic ws tid true = ws.filter (fun a => a.id ≠ tid) := by
  refine ⟨?_, ?_, rfl⟩ <;> cases persistOk <;> decide

/-- C1 counterexample: in the structural-match variant a confirmed invocation
issues the persistence call before any local removal; when persistence fails
the appointment is never removed locally at all, so the removal is neither
synchronous-before-persistence nor unconditional. -/
theorem C1_structural_removal_after_persist :
    Step.localRemove ∉ handleActionStepsStructural true false ∧
    (handleActionStepsStructural true true).indexOf Step.persistCall <
      (handleActionStepsStructural true true).indexOf Step.localRemove := by
  decide

/-- C2 (amended): in the id-addressed variants a persistence failure alerts the
operator and replaces the working set by a full refetch from the repository, so
an appointment the repository still returns (and which passes the window
filter) reappears. (The structural-match variant only alerts, without a
refetch — see the counterexample — but it also never removed the appointment
optimistically.) -/
theorem C2_failure_alert_refetch (ws repoRows : List Appt) (tid : Option Nat)
    (now : YMD) (appt : Appt) :
    handleActionSteps true false =
      [Step.confirmPrompt, Step.localRemove, Step.persistCall,
       Step.alertOperator, Step.refetchCall] ∧
    handleActionFinalSet ws tid true false repoRows now = fetchResult repoRows now ∧
    (appt ∈ repoRows → isFutureDate appt.date now = true →
      appt ∈ handleActionFinalSet ws tid true false repoRows now) := by
  refine ⟨rfl, rfl, fun h1 h2 => ?_⟩
  have heq : handleActionFinalSet ws tid true false repoRows now =
      fetchResult repoRows now := rfl
  rw [heq, mem_fetchResult]
  exact ⟨h1, h2⟩

/-- C2 witness: a concrete persistence failure on `apptEarly` (still returned
by the repository) ends with the appointment back in the working set. -/
theorem C2_failure_alert_refetch_witness :
    apptEarly ∈ [apptEarly] ∧ isFutureDate apptEarly.date nowOct = true ∧
    apptEarly ∈ handleActionFinalSet [apptEarly, apptLate] (some 1) true false
      [apptEarly] nowOct :=
  ⟨by decide, by decide,
    (C2_failure_alert_refetch [apptEarly, apptLate] [apptEarly] (some 1) nowOct
      apptEarly).2.2 (by decide) (by decide)⟩

/-- C2 counterexample: in the structural-match variant a failed persistence
call alerts the operator but never triggers a refetch of the working set. -/
theorem C2_structural_no_refetch :
    Step.refetchCall ∉ handleActionStepsStructural true false ∧
    Step.alertOperator ∈ handleActionStepsStructural true false := by
  decide

/-- C8: grouping is idempotent — flattening the buckets of `group(ws)` in
order and regrouping reproduces the same bucket keys, the same membership, and
the same bucket order. -/
theorem C8_grouping_idempotent (ws : List Appt) :
    groupedAppointments (bucketsFlatten (groupedAppointments ws)) =
      groupedAppointments ws := by
  conv_lhs => rw [groupedAppointments]
  rw [keys_of_flattened]
  have hfun : (fun k => (k, (bucketsFlatten (groupedAppointments ws)).filter
      (fun a => a.date = k))) = (fun k => (k, ws.filter (fun a => a.date = k))) :=
    funext (fun k => by rw [filter_of_flattened])
  rw [hfun, groupedAppointments]

/-- C3 (amended): within each DateBucket the appointments appear in the order
of the working set — the grouper performs no startTime sort, so within one date
the order is the (stable) fetch order; in the claim's scenario the single
bucket is ordered ["09:00", "08:30"], not ascending. -/
theorem C3_bucket_is_working_set_order (ws : List Appt) (b : String × List Appt)
    (hb : b ∈ groupedAppointments ws) :
    b.2 = ws.filter (fun a => a.date = b.1) :=
  grouped_bucket_eq ws b hb

/-- C3 witness: the scenario working set groups into the single bucket holding
its appointments in working-set order. -/
theorem C3_bucket_is_working_set_order_witness :
    (("2025-10-14", [apptNine, apptEightThirty]) ∈
      groupedAppointments (fetchResult [apptNine, apptEightThirty] nowOct)) ∧
    [apptNine, apptEightThirty] =
      (fetchResult [apptNine, apptEightThirty] nowOct).filter
        (fun a => a.date = "2025-10-14") :=
  ⟨by decide,
    C3_bucket_is_working_set_order (fetchResult [apptNine, apptEightThirty] nowOct)
      ("2025-10-14", [apptNine, apptEightThirty]) (by decide)⟩

/-- C3 counterexample: the appointments `[{date:"2025-10-14", time:"09:00"},
{date:"2025-10-14", time:"08:30"}]` form one bucket whose time order is
["09:00", "08:30"] — not the ascending ["08:30", "09:00"] the claim states. -/
theorem C3_scenario_not_time_sorted :
    (groupedAppointments (fetchResult [apptNine, apptEightThirty] nowOct)).map
        (fun b => b.2.map (fun a => a.start_time)) = [["09:00", "08:30"]] ∧
    [["09:00", "08:30"]] ≠ [["08:30", "09:00"]] := by
  decide

/-- C4 (amended): in the rollover variants (`parseAppointmentDate`), for every
ordinal date string without a year token, if the literal parse with the
reference year is strictly more than 6 months before `now` (as the code
measures it, via `setMonth(-6)`), normalization returns the literal parse with
its year replaced by the next calendar year (`setFullYear(currentYear + 1)`,
one year later than the literal parse); otherwise it returns the literal-year
parse unchanged. (The structural-match variant's `parseDate` performs no
rollover at all — see the counterexample.) -/
theorem C4_year_rollover (raw : String) (now : YMD) (lit : YMD)
    (hne : ¬ raw = "") (hnd : containsDash raw = false)
    (hlit : literalYearParse raw now.year = some lit) :
    parseAppointmentDate raw now =
      some (if moreThanSixMonthsBefore lit now then jsSetFullYear (now.year + 1) lit
            else lit) := by
  unfold literalYearParse at hlit
  unfold parseAppointmentDate
  rw [if_neg hne, if_neg (by rw [hnd]; exact Bool.false_ne_true)]
  rw [hlit]
  unfold moreThanSixMonthsBefore
  cases hlt : ymdLT lit (monthsBackSix now) <;> simp [hlt]

/-- C4 witness: "14th Jan" seen on 2025-11-10 rolls over to 2026-01-14 (one
year later than the literal parse), while "3rd Aug" seen on 2025-10-01 stays at
2025-08-03. -/
theorem C4_year_rollover_witness :
    (¬ "14th Jan" = "" ∧ containsDash "14th Jan" = false ∧
      literalYearParse "14th Jan" (2025 : Int) = some ⟨2025, 1, 14⟩) ∧
    parseAppointmentDate "14th Jan" ⟨2025, 11, 10⟩ = some (oneYearLater ⟨2025, 1, 14⟩) ∧
    parseAppointmentDate "3rd Aug" ⟨2025, 10, 1⟩ = some ⟨2025, 8, 3⟩ :=
  ⟨⟨by decide, by decide, by decide⟩,
    by
      rw [C4_year_rollover "14th Jan" ⟨2025, 11, 10⟩ ⟨2025, 1, 14⟩ (by decide)
        (by decide) (by decide)]
      decide,
    by
      rw [C4_year_rollover "3rd Aug" ⟨2025, 10, 1⟩ ⟨2025, 8, 3⟩ (by decide)
        (by decide) (by decide)]
      decide⟩

/-- C4 counterexample: the structural-match variant's `parseDate` (a cited
implementation of the normalizer) returns the literal parse 2025-01-14 for
"14th Jan" with reference year 2025, although that date is strictly more than
six months before the reference date 2025-11-10; it is not one year later than
the literal parse. -/
theorem C4_structural_no_rollover :
    literalYearParse "14th Jan" (2025 : Int) = some ⟨2025, 1, 14⟩ ∧
    moreThanSixMonthsBefore ⟨2025, 1, 14⟩ ⟨2025, 11, 10⟩ = true ∧
    parseDate "14th Jan" 2025 = some ⟨2025, 1, 14⟩ ∧
    some (⟨2025, 1, 14⟩ : YMD) ≠ some (oneYearLater ⟨2025, 1, 14⟩) := by
  decide

/-- C6 (amended): the per-action variant names the timestamp field after the
action (`completed_at` for Completed, `cancelled_at` for Cancelled) and the
structural-match variant uses the combined `action_at` for both actions — but
the jsx variant's payload uses `cancelled_at` for BOTH actions, including
Completed. -/
theorem C6_timestamp_field_names (appt : Appt) (em : Option String) (iso : String)
    (actionType : ActionType) :
    ((payloadPerAction appt iso ActionType.Completed).map Prod.fst =
      ["appointment_id", "patient_name", "email", "status", "completed_at"]) ∧
    ((payloadPerAction appt iso ActionType.Cancelled).map Prod.fst =
      ["appointment_id", "patient_name", "email", "reason", "cancelled_at"]) ∧
    ((payloadStructural appt iso actionType).map Prod.fst =
      ["patient_name", "email", "date", "time", "status", "action_at"]) ∧
    ((payloadJsx appt em iso actionType).map Prod.fst =
      ["appointment_id", "patient_name", "email", "reason", "cancelled_at"]) :=
  ⟨rfl, rfl, rfl, rfl⟩

/-- C6 counterexample: the jsx variant's payload for a Completed action carries
no `completed_at` field; its timestamp field is `cancelled_at`. -/
theorem C6_jsx_completed_uses_cancelled_at :
    ("completed_at" ∉ (payloadJsx apptEarly (some "doc@clinic.com")
        "2025-10-01T00:00:00Z" ActionType.Completed).map Prod.fst) ∧
    ("cancelled_at" ∈ (payloadJsx apptEarly (some "doc@clinic.com")
        "2025-10-01T00:00:00Z" ActionType.Completed).map Prod.fst) := by
  decide

/-- A successful lenient parse decomposes the token list into a day token, a
month token and a 4-digit year token, and the result's year is that token's
value. -/
theorem jsLooseParse_shape (ts : List String) (v : YMD)
    (h : jsLooseParseTokens ts = some v) :
    ∃ dTok mTok yTok y, ts = [dTok, mTok, yTok] ∧ yTok.length = 4 ∧
      natOfToken yTok = some y ∧ v.year = Int.ofNat y := by
  match ts with
  | [] => simp [jsLooseParseTokens] at h
  | [_] => simp [jsLooseParseTokens] at h
  | [_, _] => simp [jsLooseParseTokens] at h
  | _ :: _ :: _ :: _ :: _ => simp [jsLooseParseTokens] at h
  | [dTok, mTok, yTok] =>
    refine ⟨dTok, mTok, yTok, ?_⟩
    simp only [jsLooseParseTokens] at h
    split at h
    · rename_i d m y hD hM hY
      split at h
      · rename_i hcond
        unfold mkValidYMD at h
        split at h
        · refine ⟨y, rfl, hcond.2, hY, ?_⟩
          cases h
          rfl
        · simp at h
      · simp at h
    · simp at h

/-- C5 (amended): in the variant implementing the year-token branch
(`parseDate`), every ordinal date string already containing a 4-digit year
token is parsed with the year present in the string — the result is
independent of the reference year, and its year equals the string's year
token. (The other variants append the reference year unconditionally, so such
strings fail to parse — see the counterexample.) -/
theorem C5_year_token_respected (raw : String) (refY refY2 : Int) (d : YMD)
    (hne : ¬ raw = "") (hnd : containsDash raw = false)
    (hyr : hasFourDigitRun (stripOrdinalSuffix raw) = true)
    (hp : jsLooseParseTokens (tokensOf (stripOrdinalSuffix raw)) = some d) :
    parseDate raw refY = some d ∧ parseDate raw refY = parseDate raw refY2 ∧
    ∃ dTok mTok yTok y, tokensOf (stripOrdinalSuffix raw) = [dTok, mTok, yTok] ∧
      yTok.length = 4 ∧ natOfToken yTok = some y ∧ d.year = Int.ofNat y := by
  have hone : ∀ refA : Int, parseDate raw refA = some d := by
    intro refA
    unfold parseDate
    rw [if_neg hne, if_neg (by rw [hnd]; exact Bool.false_ne_true), if_pos hyr]
    exact hp
  exact ⟨hone refY, by rw [hone refY, hone refY2], jsLooseParse_shape _ d hp⟩

/-- C5 witness: "14th Oct 2024" parses to 2024-10-14 under reference years 2025
and 1999 alike; the year used is the string's own token "2024". -/
theorem C5_year_token_respected_witness :
    (¬ "14th Oct 2024" = "" ∧ containsDash "14th Oct 2024" = false ∧
      hasFourDigitRun (stripOrdinalSuffix "14th Oct 2024") = true ∧
      jsLooseParseTokens (tokensOf (stripOrdinalSuffix "14th Oct 2024")) =
        some ⟨2024, 10, 14⟩) ∧
    parseDate "14th Oct 2024" 2025 = some ⟨2024, 10, 14⟩ ∧
    parseDate "14th Oct 2024" 2025 = parseDate "14th Oct 2024" 1999 :=
  ⟨⟨by decide, by decide, by decide, by decide⟩,
    (C5_year_token_respected "14th Oct 2024" 2025 1999 ⟨2024, 10, 14⟩ (by decide)
      (by decide) (by decide) (by decide)).1,
    (C5_year_token_respected "14th Oct 2024" 2025 1999 ⟨2024, 10, 14⟩ (by decide)
      (by decide) (by decide) (by decide)).2.1⟩

/-- C5 counterexample: the jsx normalizer (`parseAppointmentDate`, also cited
for this claim) appends the reference year unconditionally, so an ordinal
string already carrying a 4-digit year becomes a four-token string that fails
the date parse: it is treated as unparseable rather than parsed with the
string's year 2024. -/
theorem C5_jsx_rejects_year_token :
    parseAppointmentDate "14th Oct 2024" nowOct = none ∧
    parseAppointmentDate "14th Oct 2024" nowOct ≠ some ⟨2024, 10, 14⟩ := by
  decide

/-- C7: an unparseable raw date string is rejected by the window filters and
its appointment is excluded from the fetched working set and from every
bucket; the whole normalize/filter/group pipeline is total (every function
involved is a total Lean function), so no input can crash it. -/
theorem C7_unparseable_excluded (raw : String) (now : YMD)
    (h : parseAppointmentDate raw now = none) :
    isFutureDate raw now = false ∧ isWithinNextTwentyDays raw now = false ∧
    ∀ (rows : List Appt) (a : Appt), a.date = raw →
      (a ∉ fetchResult rows now ∧
        ∀ b ∈ groupedAppointments (fetchResult rows now), a ∉ b.2) := by
  refine ⟨?_, ?_, ?_⟩
  · unfold isFutureDate; rw [h]
  · unfold isWithinNextTwentyDays; rw [h]
  · intro rows a hdate
    have hnotmem : a ∉ fetchResult rows now := by
      intro hmem
      have hfut := ((mem_fetchResult rows now a).mp hmem).2
      rw [hdate] at hfut
      unfold isFutureDate at hfut
      rw [h] at hfut
      exact Bool.false_ne_true hfut
    refine ⟨hnotmem, fun b hb hmem => ?_⟩
    rw [grouped_bucket_eq _ b hb] at hmem
    exact hnotmem (List.mem_filter.mp hmem).1

/-- C7 witness: the appointment with raw date "soon" never parses, is rejected
by both window filters, and lands in no bucket of the pipeline. -/
theorem C7_unparseable_excluded_witness :
    parseAppointmentDate "soon" nowOct = none ∧
    isFutureDate "soon" nowOct = false ∧
    apptSoon ∉ fetchResult [apptSoon, apptEarly] nowOct :=
  ⟨by decide,
    (C7_unparseable_excluded "soon" nowOct (by decide)).1,
    ((C7_unparseable_excluded "soon" nowOct (by decide)).2.2
      [apptSoon, apptEarly] apptSoon rfl).1⟩

/-- C9: after a successful fetch with no prior selection and a nonempty
filtered working set, the selection becomes the date of the head of the sorted
working set — which is the key of the first bucket and is chronologically
minimal; an already-existing (nonempty-string) selection is left unchanged. -/
theorem C9_initial_selection (rows : List Appt) (now : YMD) (a : Appt)
    (rest : List Appt) (s : String)
    (hfr : fetchResult rows now = a :: rest) :
    updateSelection (fetchResult rows now) none = some a.date ∧
    (groupedAppointments (fetchResult rows now)).head?.map Prod.fst = some a.date ∧
    (∀ x ∈ fetchResult rows now, ymdLE (dateKey now a) (dateKey now x) = true) ∧
    (¬ s = "" → updateSelection (fetchResult rows now) (some s) = some s) := by
  refine ⟨?_, ?_, ?_, ?_⟩
  · rw [hfr]; rfl
  · rw [hfr]
    simp [groupedAppointments, keysInOrder]
  · exact fun x hx => sortByDate_head_min now _ a rest hfr x hx
  · intro hs
    rw [hfr]
    unfold updateSelection
    simp [jsFalsyStr, hs]

/-- C9 witness: fetching `[apptLate, apptEarly]` sorts the earlier date first;
with no prior selection the selection becomes "2025-10-12", and an existing
selection "2025-10-20" stays untouched. -/
theorem C9_initial_selection_witness :
    fetchResult [apptLate, apptEarly] nowOct = apptEarly :: [apptLate] ∧
    updateSelection (fetchResult [apptLate, apptEarly] nowOct) none =
      some "2025-10-12" ∧
    updateSelection (fetchResult [apptLate, apptEarly] nowOct)
      (some "2025-10-20") = some "2025-10-20" :=
  ⟨by decide,
    (C9_initial_selection [apptLate, apptEarly] nowOct apptEarly [apptLate]
      "2025-10-20" (by decide)).1,
    (C9_initial_selection [apptLate, apptEarly] nowOct apptEarly [apptLate]
      "2025-10-20" (by decide)).2.2.2 (by decide)⟩

/-- C10: the optimistic removal of the id-addressed variants filters the whole
working set on id inequality — every row whose id equals the target's id is
removed (also when the id field is absent on all rows, since undefined equals
undefined), and every row with a different id survives. -/
theorem C10_removal_deletes_every_matching_id (ws : List Appt) (target a : Appt) :
    localSetAfterOptimistic ws target.id true =
      ws.filter (fun x => x.id ≠ target.id) ∧
    (a ∈ ws → a.id = target.id → a ∉ localSetAfterOptimistic ws target.id true) ∧
    (a ∈ ws → ¬ a.id = target.id → a ∈ localSetAfterOptimistic ws target.id true) := by
  refine ⟨rfl, fun ha hid hmem => ?_, fun ha hid => ?_⟩
  · have hmem' : a ∈ ws.filter (fun x => x.id ≠ target.id) := hmem
    exact of_decide_eq_true (List.mem_filter.mp hmem').2 hid
  · show a ∈ ws.filter (fun x => x.id ≠ target.id)
    exact List.mem_filter.mpr ⟨ha, decide_eq_true hid⟩

/-- C10 witness: with the id column absent on both rows (both ids undefined), a
single confirmed action addressed at the first row removes both rows from the
local working set. -/
theorem C10_removal_deletes_every_matching_id_witness :
    (apptDupA ∈ [apptDupA, apptDupB] ∧ apptDupB ∈ [apptDupA, apptDupB] ∧
      apptDupB.id = apptDupA.id) ∧
    apptDupA ∉ localSetAfterOptimistic [apptDupA, apptDupB] apptDupA.id true ∧
    apptDupB ∉ localSetAfterOptimistic [apptDupA, apptDupB] apptDupA.id true :=
  ⟨⟨by decide, by decide, rfl⟩,
    (C10_removal_deletes_every_matching_id [apptDupA, apptDupB] apptDupA
      apptDupA).2.1 (by decide) rfl,
    (C10_removal_deletes_every_matching_id [apptDupA, apptDupB] apptDupA
      apptDupB).2.1 (by decide) rfl⟩

end Clinic
